import Mathlib

/-!
Shallow embedding of the metadata-extraction core of the rpa-doc tool:
the `XamlProcessor` class (document extractor and type/direction token
decoder) and the `WorkflowMetadata` class (the metadata model), in both
revisions present in the repository.  Strings are modelled as `List Char`,
JavaScript exceptions as `Except JsError`, and the parsed XML document as
an explicit element tree carrying namespace URI, local name, literal
attribute names and child elements.
-/

/-- Strings of the embedded JavaScript code, modelled as character lists. -/
abbrev Str := List Char

/-- Exceptions raised by the embedded code: JavaScript `TypeError` and
`ReferenceError` values carrying their message. -/
inductive JsError where
  | typeError (msg : String)
  | referenceError (msg : String)
deriving DecidableEq

/-- JavaScript `String.prototype.indexOf` restricted to a one-character
needle, as used by `parseArgumentTypeAttribute`: the index of the first
occurrence of the character, or `-1` when it does not occur. -/
def jsIndexOf : Str → Char → Int
  | [], _ => -1
  | x :: xs, c =>
    if x = c then 0
    else if jsIndexOf xs c = -1 then -1 else jsIndexOf xs c + 1

/-- JavaScript `String.prototype.slice`: negative indices count from the
end of the string, indices are clamped to the string bounds, and the
result is empty when the clamped end does not exceed the clamped start. -/
def jsSlice (cs : Str) (start stop : Int) : Str :=
  let len : Int := cs.length
  let s := if start < 0 then max (len + start) 0 else min start len
  let e := if stop < 0 then max (len + stop) 0 else min stop len
  (cs.drop s.toNat).take (e - s).toNat

/-- Characters removed by JavaScript `String.prototype.trim` (the ASCII
white-space characters that occur in this code base). -/
def isJsSpace (c : Char) : Bool := c = ' ' || c = '\t' || c = '\n' || c = '\r'

/-- JavaScript `String.prototype.trim`: strip white space from both ends. -/
def jsTrim (cs : Str) : Str :=
  ((cs.dropWhile isJsSpace).reverse.dropWhile isJsSpace).reverse

/-- JavaScript `String.prototype.replace` with a one-character plain-string
pattern and empty replacement: remove the first occurrence, if any. -/
def removeFirstChar : Str → Char → Str
  | [], _ => []
  | x :: xs, c => if x = c then xs else x :: removeFirstChar xs c

/-- Line-break characters matched by the regular expression class `[\r\n]`. -/
def isLineBreak (c : Char) : Bool := c = '\r' || c = '\n'

/-- JavaScript `String.prototype.replace` with the non-global regular
expression matching one or more line breaks and replacement by a single
space: the first (leftmost, greedy) run of line breaks collapses to one
space and the rest of the string is untouched. -/
def collapseFirstLineBreakRun : Str → Str
  | [] => []
  | x :: xs =>
    if isLineBreak x then ' ' :: xs.dropWhile isLineBreak
    else x :: collapseFirstLineBreakRun xs

/-- An element of the parsed XML document, carrying the pieces of the DOM
that the extractor touches: the resolved namespace URI, the local name,
the attributes keyed by their literal (prefix-qualified) source name, and
the child elements. -/
inductive XmlElem where
  | node (nsUri localName : Str) (attrs : List (Str × Str)) (children : List XmlElem)

/-- Namespace URI of an element. -/
def XmlElem.nsUri : XmlElem → Str
  | .node n _ _ _ => n

/-- Local name of an element. -/
def XmlElem.localName : XmlElem → Str
  | .node _ l _ _ => l

/-- Attribute list of an element. -/
def XmlElem.attrs : XmlElem → List (Str × Str)
  | .node _ _ a _ => a

/-- Child elements of an element. -/
def XmlElem.children : XmlElem → List XmlElem
  | .node _ _ _ c => c

/-- DOM `getAttribute` as implemented by the xmldom package: the value of
the attribute with the given literal name, or the empty string when the
element does not carry it. -/
def XmlElem.getAttribute (e : XmlElem) (nm : Str) : Str :=
  match e.attrs.find? (fun p => decide (p.1 = nm)) with
  | some p => p.2
  | none => []

/-- DOM `hasAttribute`: whether the element carries an attribute with the
given literal name. -/
def XmlElem.hasAttribute (e : XmlElem) (nm : Str) : Bool :=
  (e.attrs.find? (fun p => decide (p.1 = nm))).isSome

/-- A parsed XAML document: its top-level elements. -/
structure XamlDoc where
  rootElements : List XmlElem

/-- URI bound to the `xaml` prefix in `XamlProcessor`'s namespace map. -/
def xamlNS : Str := "http://schemas.microsoft.com/netfx/2009/xaml/activities".toList

/-- URI bound to the `x` prefix in `XamlProcessor`'s namespace map. -/
def xNS : Str := "http://schemas.microsoft.com/winfx/2006/xaml".toList

/-- The literal attribute name `sap2010:Annotation.AnnotationText` read for
workflow and argument annotations. -/
def annotationTextKey : Str := "sap2010:Annotation.AnnotationText".toList

/-- One argument record as stored in the `arguments` map (the source field
`annotation` is called `annotationText` here). -/
structure Argument where
  name : Str
  direction : Str
  type : Str
  annotationText : Str
  defaultValue : Str
deriving DecidableEq

/-- The workflow metadata record built per document: the `WorkflowMetadata`
class fields `filePath`, `workflowName`, `workflowAnnotation` (here
`workflowAnnotationText`) and `arguments`.  Unset fields are `none`; the
`arguments` JavaScript `Map` is an insertion-ordered association list. -/
structure WorkflowMetadata where
  filePath : Str
  workflowName : Option Str
  workflowAnnotationText : Option Str
  arguments : List (Str × Argument)
deriving DecidableEq

/-- JavaScript `Map.prototype.set` on the association list: replace the
value stored at an existing key in place, otherwise append a new entry. -/
def mapSet : List (Str × Argument) → Str → Argument → List (Str × Argument)
  | [], k, v => [(k, v)]
  | p :: ps, k, v => if p.1 = k then (k, v) :: ps else p :: mapSet ps k v

/-- JavaScript `Map.prototype.get` on the association list. -/
def mapGet : List (Str × Argument) → Str → Option Argument
  | [], _ => none
  | p :: ps, k => if p.1 = k then some p.2 else mapGet ps k

/-- The `validArgumentDirections` list initialised by the `WorkflowMetadata`
constructor. -/
def validArgumentDirections : List Str :=
  ["InArgument".toList, "OutArgument".toList, "InOutArgument".toList]

namespace WorkflowMetadata

/-- The `WorkflowMetadata` constructor from `app/WorkflowMetadata.js`:
reject a missing/empty `filePath`, otherwise start with both name fields
unset and an empty argument map. -/
def create (filePath : Str) : Except JsError WorkflowMetadata :=
  if filePath = [] then
    .error (.typeError "filePath parameter is required and must be a string")
  else
    .ok { filePath := filePath, workflowName := none,
          workflowAnnotationText := none, arguments := [] }

/-- `WorkflowMetadata.setWorkflowName`: reject a missing/empty value (the
`!workflowName` guard), otherwise assign the field. -/
def setWorkflowName (m : WorkflowMetadata) (workflowName : Str) :
    Except JsError WorkflowMetadata :=
  if workflowName = [] then
    .error (.typeError "workflowName parameter is required and must be a string")
  else
    .ok { m with workflowName := some workflowName }

/-- `WorkflowMetadata.getWorkflowName`: raise a `ReferenceError` while the
field is unset, otherwise return the stored value. -/
def getWorkflowName (m : WorkflowMetadata) : Except JsError Str :=
  match m.workflowName with
  | none => .error (.referenceError "The workflowName property has not been set.")
  | some s => .ok s

/-- `WorkflowMetadata.setWorkflowAnnotation` (field renamed to
`workflowAnnotationText` in this embedding): reject a missing/empty value,
otherwise assign the field. -/
def setWorkflowAnnotationText (m : WorkflowMetadata) (v : Str) :
    Except JsError WorkflowMetadata :=
  if v = [] then
    .error (.typeError "workflowAnnotation parameter is required and must be a string")
  else
    .ok { m with workflowAnnotationText := some v }

/-- `WorkflowMetadata.getWorkflowAnnotation` of `app/WorkflowMetadata.js`:
raise a `ReferenceError` while the field is unset, otherwise return the
stored value. -/
def getWorkflowAnnotationText (m : WorkflowMetadata) : Except JsError Str :=
  match m.workflowAnnotationText with
  | none => .error (.referenceError "The workflowAnnotation property has not been set.")
  | some s => .ok s

/-- `WorkflowMetadata.addArgument` from `app/WorkflowMetadata.js`: the
required-parameter guards in source order (`typeof` checks on the
annotation and default value accept every string and add no branch here),
the membership test of `direction` against `validArgumentDirections`, then
`Map.set` of the five-field record under the argument name. -/
def addArgument (m : WorkflowMetadata) (name direction type a v : Str) :
    Except JsError WorkflowMetadata :=
  if name = [] then
    .error (.typeError "name parameter is required and must be a string")
  else if direction = [] then
    .error (.typeError "direction parameter is required and must be a string")
  else if direction ∉ validArgumentDirections then
    .error (.typeError "direction parameter must be one of InArgument|OutArgument|InOutArgument")
  else if type = [] then
    .error (.typeError "type parameter is required and must be a string")
  else
    let record : Argument :=
      { name := name, direction := direction, type := type,
        annotationText := a, defaultValue := v }
    .ok { m with arguments := mapSet m.arguments name record }

/-- `WorkflowMetadata.getArguments`: the stored argument map. -/
def getArguments (m : WorkflowMetadata) : List (Str × Argument) :=
  m.arguments

end WorkflowMetadata

namespace WorkflowMetadataV2

/-- `WorkflowMetadata.addArgument` from the second revision of
`WorkflowMetadata.js` in the repository: same guards as the first
revision, but the stored record is normalised — every field is trimmed,
the first line-break run of the annotation collapses to a space
(`.replace( \x2f[\r\n]+\x2f, " " )`), and the first `[` and the first `]`
of the default value are removed (`.replace( "[", "" ).replace( "]", "" )`). -/
def addArgument (m : WorkflowMetadata) (name direction type a v : Str) :
    Except JsError WorkflowMetadata :=
  if name = [] then
    .error (.typeError "name parameter is required and must be a string")
  else if direction = [] then
    .error (.typeError "direction parameter is required and must be a string")
  else if direction ∉ validArgumentDirections then
    .error (.typeError "direction parameter must be one of InArgument|OutArgument|InOutArgument")
  else if type = [] then
    .error (.typeError "type parameter is required and must be a string")
  else
    let record : Argument :=
      { name := jsTrim name, direction := jsTrim direction, type := jsTrim type,
        annotationText := collapseFirstLineBreakRun (jsTrim a),
        defaultValue := removeFirstChar (removeFirstChar (jsTrim v) '[') ']' }
    .ok { m with arguments := mapSet m.arguments name record }

end WorkflowMetadataV2

namespace XamlProcessor

/-- `XamlProcessor.parseArgumentTypeAttribute` from `app/XamlProcessor.js`:
reject a missing or empty token (the `!argumentType` guard), then slice the
direction out of the characters before the first `(` and the data type out
of the characters between the first `:` (exclusive) and the first `)`. -/
def parseArgumentTypeAttribute (argumentType : Str) : Except JsError (Str × Str) :=
  if argumentType = [] then
    .error (.typeError "argumentType parameter is required and must be a string")
  else
    .ok (jsSlice argumentType 0 (jsIndexOf argumentType '('),
         jsSlice argumentType (jsIndexOf argumentType ':' + 1) (jsIndexOf argumentType ')'))

/-- The XPath query `/xaml:Activity`: top-level elements named `Activity`
in the base activity namespace. -/
def selectActivity (d : XamlDoc) : List XmlElem :=
  d.rootElements.filter (fun e => decide (e.nsUri = xamlNS ∧ e.localName = "Activity".toList))

/-- An XPath query `/xaml:Activity/<ns>:<nm>`: the matching children of the
top-level `Activity` elements. -/
def selectActivityChildren (d : XamlDoc) (ns nm : Str) : List XmlElem :=
  (selectActivity d).flatMap
    (fun a => a.children.filter (fun e => decide (e.nsUri = ns ∧ e.localName = nm)))

/-- `XamlProcessor.getWorkflowName`: query `/xaml:Activity/xaml:Flowchart`,
fall back to `/xaml:Activity/xaml:Sequence` when that finds nothing, then
read `DisplayName` off `workflowElements[0]` — which in JavaScript raises
a `TypeError` when both queries found nothing, because `[0]` of an empty
node list is `undefined`. -/
def getWorkflowName (d : XamlDoc) : Except JsError Str :=
  let workflowElements := selectActivityChildren d xamlNS ("Flowchart".toList)
  let workflowElements :=
    if workflowElements.length = 0 then selectActivityChildren d xamlNS ("Sequence".toList)
    else workflowElements
  match workflowElements with
  | [] => .error (.typeError "Cannot read property getAttribute of undefined")
  | e :: _ => .ok (e.getAttribute ("DisplayName".toList))

/-- `XamlProcessor.getWorkflowAnnotation`: locate the workflow root exactly
as `getWorkflowName` does, then return the `sap2010:Annotation.AnnotationText`
attribute if the root carries it and the empty string otherwise; as above,
an empty node list makes the `[0]` dereference raise a `TypeError`. -/
def getWorkflowAnnotationText (d : XamlDoc) : Except JsError Str :=
  let workflowElements := selectActivityChildren d xamlNS ("Flowchart".toList)
  let workflowElements :=
    if workflowElements.length = 0 then selectActivityChildren d xamlNS ("Sequence".toList)
    else workflowElements
  match workflowElements with
  | [] => .error (.typeError "Cannot read property hasAttribute of undefined")
  | e :: _ =>
    .ok (if e.hasAttribute annotationTextKey then e.getAttribute annotationTextKey else [])

/-- `XamlProcessor.getClassName`: read `x:Class` off the first element
returned by `/xaml:Activity`; dereferencing an empty query result raises a
`TypeError`. -/
def getClassName (d : XamlDoc) : Except JsError Str :=
  match selectActivity d with
  | [] => .error (.typeError "Cannot read property getAttribute of undefined")
  | e :: _ => .ok (e.getAttribute ("x:Class".toList))

/-- `XamlProcessor.getArgumentDefaultValue`: reject a missing/empty
argument name, then probe the outermost `Activity` element for an
attribute named `this:<ClassName>.<ArgumentName>` (built by
`util.format( "this:%s.%s", className, argumentName )`), returning its
value when present and the empty string otherwise. -/
def getArgumentDefaultValue (d : XamlDoc) (argumentName : Str) : Except JsError Str :=
  if argumentName = [] then
    .error (.typeError "argumentName parameter is required and must be a string")
  else do
    let className ← getClassName d
    match selectActivity d with
    | [] => .error (.typeError "Cannot read property hasAttribute of undefined")
    | activityElement :: _ =>
      let attributeName := ("this:".toList) ++ className ++ ('.' :: argumentName)
      if activityElement.hasAttribute attributeName then
        .ok (activityElement.getAttribute attributeName)
      else
        .ok []

/-- The argument facts collected by `getWorkflowArguments` before they are
handed to `WorkflowMetadata.addArgument`. -/
structure ArgInfo where
  name : Str
  direction : Str
  type : Str
  annotationText : Str
  defaultValue : Str
deriving DecidableEq

/-- `XamlProcessor.getWorkflowArguments`: enumerate
`/xaml:Activity/x:Members/x:Property`, and for each property read `Name`
and `Type`, decode the type token, read the optional annotation attribute
(empty string when absent), and resolve the default value; an exception in
any step aborts the whole enumeration, as a throw inside `forEach` does. -/
def getWorkflowArguments (d : XamlDoc) : Except JsError (List ArgInfo) :=
  let propertyElements :=
    (selectActivityChildren d xNS ("Members".toList)).flatMap
      (fun mem => mem.children.filter
        (fun e => decide (e.nsUri = xNS ∧ e.localName = "Property".toList)))
  propertyElements.mapM (fun argument => do
    let argumentName := argument.getAttribute ("Name".toList)
    let typeAttribute := argument.getAttribute ("Type".toList)
    let argumentTypeInfo ← parseArgumentTypeAttribute typeAttribute
    let argAnnotationText :=
      if argument.hasAttribute annotationTextKey then argument.getAttribute annotationTextKey
      else []
    let defaultValue ← getArgumentDefaultValue d argumentName
    pure { name := argumentName, direction := argumentTypeInfo.1,
           type := argumentTypeInfo.2, annotationText := argAnnotationText,
           defaultValue := defaultValue })

/-- `XamlProcessor.getMetadata`, with the file read and the DOM parse — the
two genuinely external steps — replaced by the parsed document parameter:
reject a missing/empty path, construct the model, then populate it in the
fixed order name, annotation, arguments, any raised error propagating to
the caller. -/
def getMetadata (filePath : Str) (d : XamlDoc) : Except JsError WorkflowMetadata :=
  if filePath = [] then
    .error (.typeError "filePath parameter is required and must be a string")
  else do
    let metadata ← WorkflowMetadata.create filePath
    let nm ← getWorkflowName d
    let metadata ← WorkflowMetadata.setWorkflowName metadata nm
    let an ← getWorkflowAnnotationText d
    let metadata ← WorkflowMetadata.setWorkflowAnnotationText metadata an
    let workflowArguments ← getWorkflowArguments d
    workflowArguments.foldlM
      (fun acc arg =>
        WorkflowMetadata.addArgument acc arg.name arg.direction arg.type
          arg.annotationText arg.defaultValue)
      metadata

end XamlProcessor

/-- A document mirroring the test artefact `dos.xaml`: a `Sequence` root
with a display name and no annotation attribute. -/
def docDos : XamlDoc :=
  ⟨[.node xamlNS ("Activity".toList) [(("x:Class".toList), ("dos".toList))]
      [.node xamlNS ("Sequence".toList) [(("DisplayName".toList), ("dos".toList))] []]]⟩

/-- A document whose `Activity` root contains neither a `Flowchart` nor a
`Sequence` element. -/
def docNoWorkflows : XamlDoc :=
  ⟨[.node xamlNS ("Activity".toList) [(("x:Class".toList), ("tres".toList))] []]⟩

/-- A document consisting of a single `Activity` element declaring the class
`uno` and a default value for an argument named `Ichi`, mirroring the
default-value attribute of the test artefact `uno.xaml`. -/
def actUno : XmlElem :=
  .node xamlNS ("Activity".toList)
    [(("x:Class".toList), ("uno".toList)),
     (("this:uno.Ichi".toList), ("A default string value".toList))] []

/-- The document wrapping `actUno`. -/
def docUno : XamlDoc := ⟨[actUno]⟩

/-- A freshly constructed metadata model, as produced by the
`WorkflowMetadata` constructor for the path `./test.xaml`. -/
def wm0 : WorkflowMetadata :=
  { filePath := "./test.xaml".toList, workflowName := none,
    workflowAnnotationText := none, arguments := [] }

/-- The model obtained from `wm0` by adding one argument named `Ichi`. -/
def wmIchi : WorkflowMetadata :=
  { wm0 with arguments :=
      [(("Ichi".toList),
        { name := ("Ichi".toList), direction := ("InArgument".toList),
          type := ("String".toList), annotationText := [], defaultValue := [] })] }

/-- When a character is absent from a list, `jsIndexOf` on that list
followed by the character finds the character exactly at the end of the
list. -/
lemma jsIndexOf_append (pre rest : Str) (c : Char) (h : c ∉ pre) :
    jsIndexOf (pre ++ c :: rest) c = (pre.length : Int) := by
  induction pre with
  | nil => simp [jsIndexOf]
  | cons a as ih =>
    have ha : ¬ (a = c) := fun e => h (by simp [e])
    have h' : c ∉ as := fun hm => h (List.mem_cons_of_mem _ hm)
    have hih := ih h'
    simp only [List.cons_append, jsIndexOf, if_neg ha, List.append_eq, hih]
    have hne : ((as.length : Int)) ≠ -1 := by omega
    rw [if_neg hne]
    simp only [List.length_cons]
    omega

/-- `jsSlice` with in-range non-negative indices is drop-then-take. -/
lemma jsSlice_natCast (cs : Str) (a b : Nat) (ha : a ≤ cs.length) (hb : b ≤ cs.length) :
    jsSlice cs (a : Int) (b : Int) = (cs.drop a).take (b - a) := by
  have h1 : ¬ ((a : Int) < 0) := by omega
  have h2 : ¬ ((b : Int) < 0) := by omega
  have h3 : min (a : Int) (cs.length : Int) = (a : Int) := by omega
  have h4 : min (b : Int) (cs.length : Int) = (b : Int) := by omega
  have h5 : ((a : Int)).toNat = a := by omega
  have h6 : (((b : Int) - (a : Int))).toNat = b - a := by omega
  simp only [jsSlice, if_neg h1, if_neg h2, h3, h4, h5, h6]

/-- Lookup after `mapSet`: the written key now maps to the new value and
every other key is unchanged. -/
lemma mapGet_mapSet (l : List (Str × Argument)) (n k : Str) (v : Argument) :
    mapGet (mapSet l n v) k = if k = n then some v else mapGet l k := by
  induction l with
  | nil =>
    simp only [mapSet, mapGet]
    by_cases h : k = n
    · rw [if_pos h.symm, if_pos h]
    · rw [if_neg (fun e => h e.symm), if_neg h]
  | cons p ps ih =>
    by_cases h1 : p.1 = n <;> by_cases h2 : p.1 = k <;> by_cases h3 : k = n <;>
      simp_all [mapSet, mapGet]

/-- Removing the first occurrence of a character that occurs right after a
prefix free of it deletes exactly that occurrence. -/
lemma removeFirstChar_append (s rest : Str) (c : Char) (h : c ∉ s) :
    removeFirstChar (s ++ c :: rest) c = s ++ rest := by
  induction s with
  | nil => simp [removeFirstChar]
  | cons a as ih =>
    have ha : ¬ (a = c) := fun e => h (by simp [e])
    have h' : c ∉ as := fun hm => h (List.mem_cons_of_mem _ hm)
    simp [removeFirstChar, ha, ih h']

/-- A bracket-wrapped value has no surrounding white space, so `jsTrim`
leaves it unchanged. -/
lemma jsTrim_bracket (s : Str) : jsTrim ('[' :: (s ++ [']'])) = '[' :: (s ++ [']']) := by
  unfold jsTrim
  have h1 : List.dropWhile isJsSpace ('[' :: (s ++ [']'])) = '[' :: (s ++ [']']) := by
    rw [List.dropWhile_cons]
    simp [isJsSpace]
  rw [h1]
  have h2 : ('[' :: (s ++ [']'])).reverse = ']' :: (s.reverse ++ ['[']) := by simp
  have h3 : List.dropWhile isJsSpace (']' :: (s.reverse ++ ['['])) =
      ']' :: (s.reverse ++ ['[']) := by
    rw [List.dropWhile_cons]
    simp [isJsSpace]
  rw [h2, h3, ← h2, List.reverse_reverse]

/-- The three valid direction strings are all non-empty. -/
lemma mem_validArgumentDirections_ne_nil {d : Str} (h : d ∈ validArgumentDirections) :
    d ≠ [] := by
  intro hn
  subst hn
  simp [validArgumentDirections] at h

/-- C1: on a document whose workflow root lacks the annotation attribute
the extractor piece `getWorkflowAnnotation` returns the empty string as
designed, but `getMetadata` then feeds that empty string to
`WorkflowMetadata.setWorkflowAnnotation`, whose `!workflowAnnotation`
guard rejects it — so extraction of such a document raises a `TypeError`
instead of completing with an empty description. -/
theorem c1_annotationless_document_getMetadata_throws :
    XamlProcessor.getWorkflowAnnotationText docDos = .ok [] ∧
    XamlProcessor.getMetadata ("./test/artefacts/sub-folder/dos.xaml".toList) docDos =
      .error (.typeError "workflowAnnotation parameter is required and must be a string") :=
  ⟨rfl, rfl⟩

/-- C2: on a document containing neither a `Flowchart` nor a `Sequence`
root, both root-dependent extractor functions and `getMetadata` itself
fail with the generic `TypeError` produced by dereferencing
`workflowElements[0]` on an empty node list — not with a descriptive
malformed-document error. -/
theorem c2_no_workflow_root_raises_generic_typeError :
    XamlProcessor.getWorkflowName docNoWorkflows =
      .error (.typeError "Cannot read property getAttribute of undefined") ∧
    XamlProcessor.getWorkflowAnnotationText docNoWorkflows =
      .error (.typeError "Cannot read property hasAttribute of undefined") ∧
    XamlProcessor.getMetadata ("./tres.xaml".toList) docNoWorkflows =
      .error (.typeError "Cannot read property getAttribute of undefined") :=
  ⟨rfl, rfl, rfl⟩

/-- C3: `parseArgumentTypeAttribute` does not fail on non-empty tokens that
are missing the required delimiters; the `indexOf` results of `-1` make
the slices silently return mangled partial data — here the token
`InArgument` (no delimiters at all) yields the pair
(`InArgumen`, `InArgumen`), and `InArgument(xString)` (no colon) yields
(`InArgument`, `InArgument(xString`). -/
theorem c3_malformed_type_token_returns_partial_data :
    XamlProcessor.parseArgumentTypeAttribute ("InArgument".toList) =
      .ok ("InArgumen".toList, "InArgumen".toList) ∧
    XamlProcessor.parseArgumentTypeAttribute ("InArgument(xString)".toList) =
      .ok ("InArgument".toList, "InArgument(xString".toList) :=
  ⟨rfl, rfl⟩

/-- C4: for every well-formed token `D(p:T)` — with the first `(`, `:` and
`)` being the displayed delimiters — `parseArgumentTypeAttribute` returns
exactly the pair (D, T); the namespace-prefix `p` does not occur in the
result, so the result is independent of its value. -/
theorem c4_wellformed_type_token_decodes_direction_and_type
    (D p T : Str) (hD1 : '(' ∉ D) (hD2 : ':' ∉ D) (hD3 : ')' ∉ D)
    (hp1 : ':' ∉ p) (hp2 : ')' ∉ p) (hT : ')' ∉ T) :
    XamlProcessor.parseArgumentTypeAttribute (D ++ '(' :: (p ++ ':' :: (T ++ [')']))) =
      .ok (D, T) := by
  set token : Str := D ++ '(' :: (p ++ ':' :: (T ++ [')'])) with htok
  have hlen : token.length = D.length + p.length + T.length + 3 := by
    rw [htok]; simp; omega
  have hne : ¬ (token = []) := by
    intro h
    have hl := congrArg List.length h
    rw [hlen] at hl
    simp at hl
  have hopen : jsIndexOf token '(' = (D.length : Int) := by
    rw [htok]
    exact jsIndexOf_append D _ '(' hD1
  have heq2 : token = (D ++ '(' :: p) ++ ':' :: (T ++ [')']) := by rw [htok]; simp
  have hmem2 : ':' ∉ (D ++ '(' :: p) := by
    simp only [List.mem_append, List.mem_cons]
    push_neg
    exact ⟨hD2, by decide, hp1⟩
  have hcolon : jsIndexOf token ':' = ((D ++ '(' :: p).length : Int) := by
    rw [heq2]
    exact jsIndexOf_append _ _ _ hmem2
  have heq3 : token = (D ++ '(' :: (p ++ ':' :: T)) ++ ')' :: ([] : Str) := by rw [htok]; simp
  have hmem3 : ')' ∉ (D ++ '(' :: (p ++ ':' :: T)) := by
    simp only [List.mem_append, List.mem_cons]
    push_neg
    exact ⟨hD3, by decide, hp2, by decide, hT⟩
  have hclose : jsIndexOf token ')' = ((D ++ '(' :: (p ++ ':' :: T)).length : Int) := by
    rw [heq3]
    exact jsIndexOf_append _ _ _ hmem3
  have len2 : (D ++ '(' :: p).length = D.length + p.length + 1 := by simp; omega
  have len3 : (D ++ '(' :: (p ++ ':' :: T)).length = D.length + p.length + T.length + 2 := by
    simp; omega
  have hdir : jsSlice token 0 (jsIndexOf token '(') = D := by
    rw [hopen]
    have hsl := jsSlice_natCast token 0 D.length (by omega) (by rw [hlen]; omega)
    rw [Nat.cast_zero] at hsl
    rw [hsl]
    simp only [List.drop_zero, Nat.sub_zero]
    rw [htok]
    exact List.take_left D _
  have hdat : jsSlice token (jsIndexOf token ':' + 1) (jsIndexOf token ')') = T := by
    rw [hcolon, hclose, len2, len3]
    have hcast : ((D.length + p.length + 1 : Nat) : Int) + 1 =
        ((D.length + p.length + 2 : Nat) : Int) := by push_cast; ring
    rw [hcast]
    have hsl := jsSlice_natCast token (D.length + p.length + 2)
      (D.length + p.length + T.length + 2) (by rw [hlen]; omega) (by rw [hlen]; omega)
    rw [hsl]
    have hsub : D.length + p.length + T.length + 2 - (D.length + p.length + 2) = T.length := by
      omega
    rw [hsub]
    have hsplit : token = (D ++ '(' :: (p ++ [':'])) ++ (T ++ [')']) := by rw [htok]; simp
    have hlenpre : (D ++ '(' :: (p ++ [':'])).length = D.length + p.length + 2 := by simp; omega
    rw [hsplit, ← hlenpre, List.drop_left]
    exact List.take_left T _
  unfold XamlProcessor.parseArgumentTypeAttribute
  rw [if_neg hne, hdir, hdat]

/-- C4 witness: the token `InArgument(sd:DataTable)` from the repository's
test suite decodes to (`InArgument`, `DataTable`). -/
theorem c4_wellformed_type_token_decodes_witness :
    XamlProcessor.parseArgumentTypeAttribute ("InArgument(sd:DataTable)".toList) =
      .ok ("InArgument".toList, "DataTable".toList) := by
  have h : ("InArgument(sd:DataTable)".toList : Str) =
      ("InArgument".toList) ++ '(' :: (("sd".toList) ++ ':' :: (("DataTable".toList) ++ [')'])) := by
    rfl
  rw [h]
  exact c4_wellformed_type_token_decodes_direction_and_type
    ("InArgument".toList) ("sd".toList) ("DataTable".toList)
    (by decide) (by decide) (by decide) (by decide) (by decide) (by decide)

/-- C5 counterexample: the empty string is a direction outside the three
valid variants, yet `addArgument` rejects it with the generic
required-parameter message — not with the error naming the legal set that
the claim requires for every invalid direction. -/
theorem c5_empty_direction_error_does_not_name_legal_set :
    (([] : Str) ∉ validArgumentDirections) ∧
    WorkflowMetadata.addArgument wm0 ("Name".toList) [] ("String".toList) [] [] =
      .error (.typeError "direction parameter is required and must be a string") ∧
    WorkflowMetadata.addArgument wm0 ("Name".toList) [] ("String".toList) [] [] ≠
      .error (.typeError "direction parameter must be one of InArgument|OutArgument|InOutArgument") := by
  refine ⟨by decide, by rfl, ?_⟩
  intro h
  have h2 : (JsError.typeError "direction parameter is required and must be a string") =
      (JsError.typeError "direction parameter must be one of InArgument|OutArgument|InOutArgument") := by
    have hl : WorkflowMetadata.addArgument wm0 ("Name".toList) [] ("String".toList) [] [] =
        .error (.typeError "direction parameter is required and must be a string") := by rfl
    exact Except.error.inj (hl.symm.trans h)
  have h3 := JsError.typeError.inj h2
  exact absurd h3 (by decide)

/-- C5 (amended): a non-empty invalid direction always fails with the error
naming the legal set; an empty direction always fails with the
required-parameter error; a valid direction with non-empty name and type
always succeeds and the argument is retrievable from `getArguments` under
its name; and every entry of the argument map after a successful
`addArgument` either carries one of the three valid directions or was
already present before the call. -/
theorem c5_addArgument_direction_validation :
    (∀ (m : WorkflowMetadata) (name direction type a v : Str), name ≠ [] → direction ≠ [] →
        direction ∉ validArgumentDirections →
        WorkflowMetadata.addArgument m name direction type a v =
          .error (.typeError "direction parameter must be one of InArgument|OutArgument|InOutArgument")) ∧
    (∀ (m : WorkflowMetadata) (name type a v : Str), name ≠ [] →
        WorkflowMetadata.addArgument m name [] type a v =
          .error (.typeError "direction parameter is required and must be a string")) ∧
    (∀ (m : WorkflowMetadata) (name direction type a v : Str), name ≠ [] →
        direction ∈ validArgumentDirections → type ≠ [] →
        ∃ m', WorkflowMetadata.addArgument m name direction type a v = .ok m' ∧
          mapGet (WorkflowMetadata.getArguments m') name =
            some { name := name, direction := direction, type := type,
                   annotationText := a, defaultValue := v }) ∧
    (∀ (m : WorkflowMetadata) (name direction type a v : Str) (m' : WorkflowMetadata),
        WorkflowMetadata.addArgument m name direction type a v = .ok m' →
        ∀ k arg, mapGet m'.arguments k = some arg →
          arg.direction ∈ validArgumentDirections ∨ mapGet m.arguments k = some arg) := by
  refine ⟨?_, ?_, ?_, ?_⟩
  · intro m name direction type a v hn hd hnv
    unfold WorkflowMetadata.addArgument
    rw [if_neg hn, if_neg hd, if_pos hnv]
  · intro m name type a v hn
    unfold WorkflowMetadata.addArgument
    rw [if_neg hn, if_pos rfl]
  · intro m name direction type a v hn hd ht
    have hde := mem_validArgumentDirections_ne_nil hd
    refine ⟨{ m with arguments := mapSet m.arguments name ⟨name, direction, type, a, v⟩ }, ?_, ?_⟩
    · unfold WorkflowMetadata.addArgument
      rw [if_neg hn, if_neg hde, if_neg (not_not_intro hd), if_neg ht]
    · have hres : mapGet (mapSet m.arguments name ⟨name, direction, type, a, v⟩) name =
          some ⟨name, direction, type, a, v⟩ := by
        rw [mapGet_mapSet]
        simp
      exact hres
  · intro m name direction type a v m' h k arg hget
    unfold WorkflowMetadata.addArgument at h
    by_cases h1 : name = []
    · rw [if_pos h1] at h
      exact Except.noConfusion h
    rw [if_neg h1] at h
    by_cases h2 : direction = []
    · rw [if_pos h2] at h
      exact Except.noConfusion h
    rw [if_neg h2] at h
    by_cases h3 : direction ∉ validArgumentDirections
    · rw [if_pos h3] at h
      exact Except.noConfusion h
    rw [if_neg h3] at h
    by_cases h4 : type = []
    · rw [if_pos h4] at h
      exact Except.noConfusion h
    rw [if_neg h4] at h
    have hm' : m' = { m with arguments := mapSet m.arguments name ⟨name, direction, type, a, v⟩ } :=
      (Except.ok.inj h).symm
    subst hm'
    have hget' : mapGet (mapSet m.arguments name ⟨name, direction, type, a, v⟩) k =
        some arg := hget
    rw [mapGet_mapSet] at hget'
    by_cases h5 : k = name
    · rw [if_pos h5] at hget'
      left
      have harg : arg = ⟨name, direction, type, a, v⟩ := (Option.some.inj hget').symm
      rw [harg]
      exact not_not.mp h3
    · rw [if_neg h5] at hget'
      right
      exact hget'

/-- C5 witness: adding the argument `Ichi` with the valid direction
`InArgument` to a fresh model succeeds and the record is retrievable. -/
theorem c5_addArgument_direction_validation_witness :
    ∃ m', WorkflowMetadata.addArgument wm0 ("Ichi".toList) ("InArgument".toList)
        ("String".toList) [] [] = .ok m' ∧
      mapGet (WorkflowMetadata.getArguments m') ("Ichi".toList) =
        some { name := ("Ichi".toList), direction := ("InArgument".toList),
               type := ("String".toList), annotationText := [], defaultValue := [] } :=
  c5_addArgument_direction_validation.2.2.1 wm0 ("Ichi".toList) ("InArgument".toList)
    ("String".toList) [] [] (by decide) (by decide) (by decide)

/-- C6: on a freshly constructed model, reading the workflow name or the
workflow annotation raises the distinct catchable `ReferenceError` for
that field; after each field is set exactly once, reading returns exactly
the value that was set. -/
theorem c6_unset_then_set_name_and_description (fp s t : Str) (m : WorkflowMetadata)
    (hfp : fp ≠ []) (hs : s ≠ []) (ht : t ≠ [])
    (hm : WorkflowMetadata.create fp = .ok m) :
    WorkflowMetadata.getWorkflowName m =
      .error (.referenceError "The workflowName property has not been set.") ∧
    WorkflowMetadata.getWorkflowAnnotationText m =
      .error (.referenceError "The workflowAnnotation property has not been set.") ∧
    ∃ m₁, WorkflowMetadata.setWorkflowName m s = .ok m₁ ∧
      WorkflowMetadata.getWorkflowName m₁ = .ok s ∧
      ∃ m₂, WorkflowMetadata.setWorkflowAnnotationText m₁ t = .ok m₂ ∧
        WorkflowMetadata.getWorkflowAnnotationText m₂ = .ok t ∧
        WorkflowMetadata.getWorkflowName m₂ = .ok s := by
  have hm' : m = { filePath := fp, workflowName := none,
                   workflowAnnotationText := none, arguments := [] } := by
    unfold WorkflowMetadata.create at hm
    rw [if_neg hfp] at hm
    exact (Except.ok.inj hm).symm
  subst hm'
  refine ⟨rfl, rfl,
    { filePath := fp, workflowName := some s, workflowAnnotationText := none, arguments := [] },
    ?_, rfl,
    { filePath := fp, workflowName := some s, workflowAnnotationText := some t, arguments := [] },
    ?_, rfl, rfl⟩
  · unfold WorkflowMetadata.setWorkflowName
    rw [if_neg hs]
  · unfold WorkflowMetadata.setWorkflowAnnotationText
    rw [if_neg ht]

/-- C6 witness: the unset-then-set round trip on the concrete model `wm0`
with the name `uno` and the annotation `Hello`. -/
theorem c6_unset_then_set_name_and_description_witness :
    WorkflowMetadata.getWorkflowName wm0 =
      .error (.referenceError "The workflowName property has not been set.") ∧
    WorkflowMetadata.getWorkflowAnnotationText wm0 =
      .error (.referenceError "The workflowAnnotation property has not been set.") ∧
    ∃ m₁, WorkflowMetadata.setWorkflowName wm0 ("uno".toList) = .ok m₁ ∧
      WorkflowMetadata.getWorkflowName m₁ = .ok ("uno".toList) ∧
      ∃ m₂, WorkflowMetadata.setWorkflowAnnotationText m₁ ("Hello".toList) = .ok m₂ ∧
        WorkflowMetadata.getWorkflowAnnotationText m₂ = .ok ("Hello".toList) ∧
        WorkflowMetadata.getWorkflowName m₂ = .ok ("uno".toList) :=
  c6_unset_then_set_name_and_description ("./test.xaml".toList) ("uno".toList)
    ("Hello".toList) wm0 (by decide) (by decide) (by decide) (by rfl)

/-- C7 counterexample: after the workflow name is set to `A`, a second
`setWorkflowName` with the unrelated value `B` is accepted and the stored
name afterwards reads `B` — the later set silently replaces the earlier
value, so re-assignment is neither disallowed nor idempotent-only. -/
theorem c7_second_set_silently_replaces :
    ∃ m₁ m₂, WorkflowMetadata.setWorkflowName wm0 ("A".toList) = .ok m₁ ∧
      WorkflowMetadata.setWorkflowName m₁ ("B".toList) = .ok m₂ ∧
      WorkflowMetadata.getWorkflowName m₂ = .ok ("B".toList) ∧
      ("B".toList : Str) ≠ ("A".toList : Str) := by
  refine ⟨{ wm0 with workflowName := some ("A".toList) },
    { wm0 with workflowName := some ("B".toList) }, rfl, rfl, rfl, by decide⟩

/-- C7 (amended): after a field has been set, a later set with any
non-empty value — related or not — is accepted and replaces the stored
value (last write wins), for both the workflow name and the workflow
annotation; the setters never restrict re-assignment. -/
theorem c7_reassignment_always_accepted :
    (∀ (m m₁ : WorkflowMetadata) (s₁ s₂ : Str), s₂ ≠ [] →
      WorkflowMetadata.setWorkflowName m s₁ = .ok m₁ →
      ∃ m₂, WorkflowMetadata.setWorkflowName m₁ s₂ = .ok m₂ ∧
        WorkflowMetadata.getWorkflowName m₂ = .ok s₂) ∧
    (∀ (m m₁ : WorkflowMetadata) (s₁ s₂ : Str), s₂ ≠ [] →
      WorkflowMetadata.setWorkflowAnnotationText m s₁ = .ok m₁ →
      ∃ m₂, WorkflowMetadata.setWorkflowAnnotationText m₁ s₂ = .ok m₂ ∧
        WorkflowMetadata.getWorkflowAnnotationText m₂ = .ok s₂) := by
  constructor
  · intro m m₁ s₁ s₂ h2 _
    refine ⟨{ m₁ with workflowName := some s₂ }, ?_, rfl⟩
    unfold WorkflowMetadata.setWorkflowName
    rw [if_neg h2]
  · intro m m₁ s₁ s₂ h2 _
    refine ⟨{ m₁ with workflowAnnotationText := some s₂ }, ?_, rfl⟩
    unfold WorkflowMetadata.setWorkflowAnnotationText
    rw [if_neg h2]

/-- C7 witness: the model holding name `A` accepts the re-assignment `B`
and afterwards reads `B`. -/
theorem c7_reassignment_always_accepted_witness :
    ∃ m₂, WorkflowMetadata.setWorkflowName
        { wm0 with workflowName := some ("A".toList) } ("B".toList) = .ok m₂ ∧
      WorkflowMetadata.getWorkflowName m₂ = .ok ("B".toList) :=
  c7_reassignment_always_accepted.1 wm0 { wm0 with workflowName := some ("A".toList) }
    ("A".toList) ("B".toList) (by decide) (by rfl)

/-- C8: in the revision of `WorkflowMetadata.addArgument` that normalises
stored values, a default value wrapped in list brackets — `[` before the
literal and `]` after, with no stray `]` inside — is stored with the
wrapping brackets stripped: the stored `defaultValue` is exactly the inner
text. -/
theorem c8_bracket_wrapped_defaultValue_stripped
    (m : WorkflowMetadata) (name direction type a s : Str)
    (hn : name ≠ []) (hd : direction ∈ validArgumentDirections) (ht : type ≠ [])
    (h2 : ']' ∉ s) :
    ∃ m', WorkflowMetadataV2.addArgument m name direction type a ('[' :: (s ++ [']'])) = .ok m' ∧
      ∃ arg, mapGet m'.arguments name = some arg ∧ arg.defaultValue = s := by
  have hde := mem_validArgumentDirections_ne_nil hd
  have hdv : removeFirstChar (removeFirstChar (jsTrim ('[' :: (s ++ [']']))) '[') ']' = s := by
    rw [jsTrim_bracket]
    have hfirst : removeFirstChar ('[' :: (s ++ [']'])) '[' = s ++ [']'] := by
      simp [removeFirstChar]
    rw [hfirst]
    simpa using removeFirstChar_append s [] ']' h2
  refine ⟨{ m with arguments := mapSet m.arguments name ⟨jsTrim name, jsTrim direction, jsTrim type, collapseFirstLineBreakRun (jsTrim a), removeFirstChar (removeFirstChar (jsTrim ('[' :: (s ++ [']']))) '[') ']'⟩ }, ?_, ?_⟩
  · unfold WorkflowMetadataV2.addArgument
    rw [if_neg hn, if_neg hde, if_neg (not_not_intro hd), if_neg ht]
  · refine ⟨⟨jsTrim name, jsTrim direction, jsTrim type, collapseFirstLineBreakRun (jsTrim a),
       removeFirstChar (removeFirstChar (jsTrim ('[' :: (s ++ [']']))) '[') ']'⟩, ?_, hdv⟩
    have hres : mapGet (mapSet m.arguments name ⟨jsTrim name, jsTrim direction, jsTrim type, collapseFirstLineBreakRun (jsTrim a), removeFirstChar (removeFirstChar (jsTrim ('[' :: (s ++ [']']))) '[') ']'⟩) name = some (⟨jsTrim name, jsTrim direction, jsTrim type, collapseFirstLineBreakRun (jsTrim a), removeFirstChar (removeFirstChar (jsTrim ('[' :: (s ++ [']']))) '[') ']'⟩ : Argument) := by
      rw [mapGet_mapSet]
      simp
    exact hres

/-- C8 witness: the bracket-wrapped default value `[1, 2, 3]` is stored as
`1, 2, 3`. -/
theorem c8_bracket_wrapped_defaultValue_stripped_witness :
    ∃ m', WorkflowMetadataV2.addArgument wm0 ("Ichi".toList) ("InArgument".toList)
        ("String".toList) [] ('[' :: (("1, 2, 3".toList) ++ [']'])) = .ok m' ∧
      ∃ arg, mapGet m'.arguments ("Ichi".toList) = some arg ∧
        arg.defaultValue = ("1, 2, 3".toList) :=
  c8_bracket_wrapped_defaultValue_stripped wm0 ("Ichi".toList) ("InArgument".toList)
    ("String".toList) [] ("1, 2, 3".toList) (by decide) (by decide) (by decide) (by decide)

/-- C9: for every document whose `/xaml:Activity` query finds an outermost
element and every non-empty argument name, `getArgumentDefaultValue`
returns the empty string without error when that element carries no
attribute named `this:<ClassName>.<ArgumentName>` (the class name read
from its `x:Class` attribute), and returns that attribute's value when it
is present. -/
theorem c9_default_value_resolution (d : XamlDoc) (argumentName : Str)
    (hn : argumentName ≠ []) (act : XmlElem) (rest : List XmlElem)
    (hact : XamlProcessor.selectActivity d = act :: rest) :
    (act.hasAttribute (("this:".toList) ++ act.getAttribute ("x:Class".toList) ++ ('.' :: argumentName)) = false →
      XamlProcessor.getArgumentDefaultValue d argumentName = .ok []) ∧
    (act.hasAttribute (("this:".toList) ++ act.getAttribute ("x:Class".toList) ++ ('.' :: argumentName)) = true →
      XamlProcessor.getArgumentDefaultValue d argumentName =
        .ok (act.getAttribute (("this:".toList) ++ act.getAttribute ("x:Class".toList) ++ ('.' :: argumentName)))) := by
  have hbody : XamlProcessor.getArgumentDefaultValue d argumentName =
      (if act.hasAttribute (("this:".toList) ++ act.getAttribute ("x:Class".toList) ++ ('.' :: argumentName)) then
        .ok (act.getAttribute (("this:".toList) ++ act.getAttribute ("x:Class".toList) ++ ('.' :: argumentName)))
      else .ok []) := by
    unfold XamlProcessor.getArgumentDefaultValue XamlProcessor.getClassName
    rw [if_neg hn, hact]
    rfl
  constructor
  · intro h
    rw [hbody, h]
    simp
  · intro h
    rw [hbody, h]
    simp

/-- C9 witness: on the concrete document declaring class `uno`, the
argument `Ichi` (whose synthesized attribute `this:uno.Ichi` is present)
resolves to its declared default, and the argument `Ni` (no synthesized
attribute) resolves to the empty string without error. -/
theorem c9_default_value_resolution_witness :
    XamlProcessor.getArgumentDefaultValue docUno ("Ichi".toList) =
      .ok ("A default string value".toList) ∧
    XamlProcessor.getArgumentDefaultValue docUno ("Ni".toList) = .ok [] := by
  constructor
  · exact (c9_default_value_resolution docUno ("Ichi".toList) (by decide) actUno []
      (by rfl)).2 (by rfl)
  · exact (c9_default_value_resolution docUno ("Ni".toList) (by decide) actUno []
      (by rfl)).1 (by rfl)

/-- C10: a successful `addArgument` changes at most the arguments entry
stored under the given name: the model's file path, workflow name and
workflow annotation are unchanged, and the lookup of every other key in
the argument map is unchanged. -/
theorem c10_addArgument_frame (m : WorkflowMetadata) (name direction type a v : Str)
    (m' : WorkflowMetadata)
    (h : WorkflowMetadata.addArgument m name direction type a v = .ok m') :
    m'.filePath = m.filePath ∧ m'.workflowName = m.workflowName ∧
    m'.workflowAnnotationText = m.workflowAnnotationText ∧
    ∀ k, k ≠ name → mapGet m'.arguments k = mapGet m.arguments k := by
  unfold WorkflowMetadata.addArgument at h
  by_cases h1 : name = []
  · rw [if_pos h1] at h
    exact Except.noConfusion h
  rw [if_neg h1] at h
  by_cases h2 : direction = []
  · rw [if_pos h2] at h
    exact Except.noConfusion h
  rw [if_neg h2] at h
  by_cases h3 : direction ∉ validArgumentDirections
  · rw [if_pos h3] at h
    exact Except.noConfusion h
  rw [if_neg h3] at h
  by_cases h4 : type = []
  · rw [if_pos h4] at h
    exact Except.noConfusion h
  rw [if_neg h4] at h
  have hm' : m' = { m with arguments := mapSet m.arguments name ⟨name, direction, type, a, v⟩ } :=
    (Except.ok.inj h).symm
  subst hm'
  refine ⟨rfl, rfl, rfl, ?_⟩
  intro k hk
  have hres : mapGet (mapSet m.arguments name ⟨name, direction, type, a, v⟩) k =
      mapGet m.arguments k := by
    rw [mapGet_mapSet, if_neg hk]
  exact hres

/-- C10 witness: adding `Ichi` to the fresh model `wm0` leaves the other
fields and the lookup of the unrelated key `Ni` unchanged. -/
theorem c10_addArgument_frame_witness :
    wmIchi.filePath = wm0.filePath ∧ wmIchi.workflowName = wm0.workflowName ∧
    wmIchi.workflowAnnotationText = wm0.workflowAnnotationText ∧
    mapGet wmIchi.arguments ("Ni".toList) = mapGet wm0.arguments ("Ni".toList) := by
  have h := c10_addArgument_frame wm0 ("Ichi".toList) ("InArgument".toList)
    ("String".toList) [] [] wmIchi (by rfl)
  exact ⟨h.1, h.2.1, h.2.2.1, h.2.2.2 ("Ni".toList) (by decide)⟩
